import Mathlib

/-!
Verification model of the `contig` layout-and-view engine.

The definitions below are a shallow embedding of the Rust sources:

* `TakeCursor`, `TakeCursor.takeRange`, `TakeCursor.finish` embed the linear
  range allocator of `contig-core/src/lib.rs` (lines 54-71).  `usize`
  arithmetic is modelled on `Nat` with the bound `USIZE_MAX`; the
  `checked_add(n).expect(..)` call panics on overflow, which the model
  renders as `none`.
* `runTakes` / `fromConfigRanges` embed the `from_config` function that
  `contig-derive` generates for a record: one `take_range(len_i)` call per
  field, in declaration order, followed by `finish()`
  (`contig-derive/src/lib.rs`, lines 189-193 and 274-317).  The list `ns`
  holds the per-field footprints `Contig::len(&layout_i)`.
* `DynArgs`, `ElemTy`, `dynLen`, `dynLenWithElem` embed `DynArgs` and the
  `DynSpec` implementations of `contig-core` (scalars, `Vec3`, the
  nalgebra dynamic adapters, and `Dyn<[T]>`; lines 27-49, 96-136, 406-435).
  `Option.none` uniformly models a panic (a failed `expect`, a
  `debug_assert`, or an overflowing `usize` multiplication).
* `DynArrayView`, `cviewDyn`, `cviewFullDyn`, `viewLen`, `inBounds`,
  `dynGetSlice`, `dynSetAt` embed `DynArrayCView` / `DynArrayMView`
  construction and element access (lines 437-554).
* `vec3SetAt`, `vec3XAt`, `vec3YAt`, `vec3ZAt` embed `Vec3ViewMut::set` and
  the `Vec3View` accessors over a field's offset range (lines 200-243).
* `recordViewAccepts`, `vec3SpecCheck`, `scalarSpecCheck`,
  `demoVec3ViewCheck` embed the buffer-length checks of the generated
  record views, the core `Spec` impls, and the demo `Vec3` adapter.
-/

/-- Maximum value of a Rust `usize` (64-bit target). -/
def USIZE_MAX : Nat := 2 ^ 64 - 1

/-- Half-open index range `start..stop`, mirroring `core::ops::Range<usize>`. -/
structure Range where
  start : Nat
  stop : Nat
deriving DecidableEq, Repr

/-- Membership of an index in a half-open range. -/
def Range.mem (r : Range) (p : Nat) : Prop :=
  r.start ≤ p ∧ p < r.stop

instance (r : Range) (p : Nat) : Decidable (r.mem p) := by
  unfold Range.mem; infer_instance

/-- Linear range allocator: `TakeCursor { idx: usize }`. -/
structure TakeCursor where
  idx : Nat
deriving DecidableEq, Repr

/-- Cursor construction `TakeCursor::new()`: index starts at 0. -/
def TakeCursor.new : TakeCursor := ⟨0⟩

/-- Embedding of `TakeCursor::take_range`: returns `start..start+n` and
advances the cursor.  The source computes the new index with
`start.checked_add(n).expect("overflow in TakeCursor::take_range")`, so an
overflow past `usize::MAX` is a panic, modelled as `none`; it is never a
silent wraparound and never a `LayoutError::Overflow` value. -/
def TakeCursor.takeRange (c : TakeCursor) (n : Nat) : Option (Range × TakeCursor) :=
  if c.idx + n ≤ USIZE_MAX then
    some (⟨c.idx, c.idx + n⟩, ⟨c.idx + n⟩)
  else
    none

/-- Embedding of `TakeCursor::finish`: consumes the cursor and returns the
total number of elements allocated. -/
def TakeCursor.finish (c : TakeCursor) : Nat := c.idx

/-- Run a sequence of `take_range` requests, collecting the returned ranges;
`none` when any request panics on overflow. -/
def runTakes : TakeCursor → List Nat → Option (List Range × TakeCursor)
  | c, [] => some ([], c)
  | c, n :: ns =>
    match c.takeRange n with
    | none => none
    | some (r, c') =>
      match runTakes c' ns with
      | none => none
      | some (rs, c'') => some (r :: rs, c'')

/-- Embedding of the `from_config` function generated by `contig-derive`:
starting from `TakeCursor::new()`, take one range per field footprint in
declaration order, then return the ranges together with `finish()`. -/
def fromConfigRanges (ns : List Nat) : Option (List Range × Nat) :=
  match runTakes TakeCursor.new ns with
  | none => none
  | some (rs, c) => some (rs, c.finish)

/-- Ranges produced by successive successful takes starting at index `s`. -/
def rangesFrom (s : Nat) : List Nat → List Range
  | [] => []
  | n :: ns => ⟨s, s + n⟩ :: rangesFrom (s + n) ns

/-- Characterization of `runTakes`: starting from a cursor whose index is in
bounds, the run succeeds exactly when the total requested size stays within
`usize::MAX`, and then returns the chained ranges and the advanced cursor. -/
theorem runTakes_eq (ns : List Nat) :
    ∀ c : TakeCursor, c.idx ≤ USIZE_MAX →
      runTakes c ns =
        if c.idx + ns.sum ≤ USIZE_MAX then
          some (rangesFrom c.idx ns, ⟨c.idx + ns.sum⟩)
        else
          none := by
  induction ns with
  | nil =>
    intro c hc
    simp [runTakes, rangesFrom, hc]
  | cons n ns ih =>
    intro c hc
    by_cases h1 : c.idx + n ≤ USIZE_MAX
    · rw [runTakes]
      simp only [TakeCursor.takeRange, h1, if_pos]
      rw [ih ⟨c.idx + n⟩ h1]
      by_cases h2 : c.idx + (n :: ns).sum ≤ USIZE_MAX
      · have h2' : c.idx + n + ns.sum ≤ USIZE_MAX := by
          simp only [List.sum_cons] at h2; omega
        simp only [h2', if_pos, h2]
        simp [rangesFrom, List.sum_cons]
        omega
      · have h2' : ¬ c.idx + n + ns.sum ≤ USIZE_MAX := by
          simp only [List.sum_cons] at h2; omega
        rw [if_neg h2']
        simp only [List.sum_cons]
        rw [if_neg (by omega)]
    · rw [runTakes]
      simp only [TakeCursor.takeRange, h1, if_neg, ite_false, List.sum_cons]
      rw [if_neg (by omega)]

/-- Length of the range list produced by `rangesFrom`. -/
theorem rangesFrom_length (ns : List Nat) : ∀ s, (rangesFrom s ns).length = ns.length := by
  induction ns with
  | nil => intro s; rfl
  | cons n ns ih => intro s; simp [rangesFrom, ih]

/-- The `i`-th range produced by `rangesFrom s ns` spans the `i`-th window of
partial sums of `ns`, shifted by `s`. -/
theorem rangesFrom_get? (ns : List Nat) :
    ∀ s i, i < ns.length →
      (rangesFrom s ns)[i]? =
        some ⟨s + (ns.take i).sum, s + (ns.take (i + 1)).sum⟩ := by
  induction ns with
  | nil => intro s i hi; simp at hi
  | cons n ns ih =>
    intro s i hi
    cases i with
    | zero => simp [rangesFrom]
    | succ i =>
      have hi' : i < ns.length := by simpa using hi
      simp only [rangesFrom, List.getElem?_cons_succ]
      rw [ih (s + n) i hi']
      simp [List.sum_cons, Nat.add_assoc]

/-- Partial sums of a `Nat` list are monotone in the number of summands. -/
theorem sum_take_mono (ns : List Nat) : ∀ i j, i ≤ j → (ns.take i).sum ≤ (ns.take j).sum := by
  induction ns with
  | nil => intro i j _; simp
  | cons n ns ih =>
    intro i j hij
    cases i with
    | zero => simp
    | succ i =>
      cases j with
      | zero => omega
      | succ j =>
        simp only [List.take_succ_cons, List.sum_cons]
        have := ih i j (by omega)
        omega

/-- Any partial sum is bounded by the full sum. -/
theorem sum_take_le (ns : List Nat) (i : Nat) : (ns.take i).sum ≤ ns.sum := by
  conv_rhs => rw [← List.take_append_drop i ns]
  rw [List.sum_append]
  exact Nat.le_add_right _ _

/-- Every range produced by `rangesFrom s ns` sits inside `[s, s + ns.sum)`. -/
theorem rangesFrom_mem_bounds (ns : List Nat) :
    ∀ s r, r ∈ rangesFrom s ns → s ≤ r.start ∧ r.stop ≤ s + ns.sum := by
  induction ns with
  | nil => intro s r hr; simp [rangesFrom] at hr
  | cons n ns ih =>
    intro s r hr
    simp only [rangesFrom, List.mem_cons] at hr
    rcases hr with hr | hr
    · subst hr
      simp only [List.sum_cons]
      omega
    · have := ih (s + n) r hr
      simp only [List.sum_cons]
      omega

/-- Every index in `[s, s + ns.sum)` is covered by some range of
`rangesFrom s ns`. -/
theorem rangesFrom_cover (ns : List Nat) :
    ∀ s p, s ≤ p → p < s + ns.sum →
      ∃ r ∈ rangesFrom s ns, r.mem p := by
  induction ns with
  | nil => intro s p h1 h2; simp at h2; omega
  | cons n ns ih =>
    intro s p h1 h2
    by_cases hp : p < s + n
    · exact ⟨⟨s, s + n⟩, List.mem_cons_self _ _, h1, hp⟩
    · have h2' : p < (s + n) + ns.sum := by
        simp only [List.sum_cons] at h2; omega
      obtain ⟨r, hr, hmem⟩ := ih (s + n) p (by omega) h2'
      exact ⟨r, List.mem_cons_of_mem _ hr, hmem⟩

/-- Runtime shape arguments, mirroring `DynArgs { len: Option<usize>, shape: Option<(usize, usize)> }`. -/
structure DynArgs where
  len : Option Nat
  shape : Option (Nat × Nat)
deriving DecidableEq, Repr

/-- Mirror of `DynArgs::default()`: both fields `None`. -/
def DynArgs.default : DynArgs := ⟨none, none⟩

/-- Mirror of `DynArgs::with_len`. -/
def DynArgs.withLen (n : Nat) : DynArgs := ⟨some n, none⟩

/-- Mirror of `DynArgs::with_shape`. -/
def DynArgs.withShape (r c : Nat) : DynArgs := ⟨none, some (r, c)⟩

/-- Element types implementing `DynSpec<F>` in `contig-core`: scalars
(`f32`/`f64`), `Vec3`, the nalgebra dynamic vector and matrix adapters, and
the dynamic array `Dyn<[T]>` over any of these. -/
inductive ElemTy
  | scalar
  | vec3
  | naDVector
  | naDMatrix
  | dynOf (t : ElemTy)
deriving DecidableEq, Repr

/-- Checked `usize` multiplication: Rust's `*` on `usize` is a program error
on overflow (panics under debug assertions), modelled as `none`. -/
def checkedMul (a b : Nat) : Option Nat :=
  if a * b ≤ USIZE_MAX then some (a * b) else none

/-- Embedding of `DynSpec::dyn_len` for each implementation in
`contig-core`: scalars occupy 1, `Vec3` occupies 3, `NaDVector` reads
`args.len`, `NaDMatrix` reads `args.shape` and multiplies, and `Dyn<[T]>`
reads `args.len` as the count `n`, returns 0 for `n == 0`, and otherwise
returns `n * T::dyn_len(&DynArgs::default())`.  A failed `expect` on a
missing argument and an overflowing multiplication are both `none`. -/
def dynLen : ElemTy → DynArgs → Option Nat
  | .scalar, _ => some 1
  | .vec3, _ => some 3
  | .naDVector, args => args.len
  | .naDMatrix, args =>
    match args.shape with
    | none => none
    | some (r, c) => checkedMul r c
  | .dynOf t, args =>
    match args.len with
    | none => none
    | some n =>
      if n = 0 then some 0
      else (dynLen t DynArgs.default).bind (checkedMul n)

/-- Embedding of `DynSpec::dyn_len_with_elem`: for `Dyn<[T]>` it is
`n * T::dyn_len(elem_args)` with the count-zero early return; every other
implementation keeps the trait default, which ignores the element args. -/
def dynLenWithElem : ElemTy → DynArgs → DynArgs → Option Nat
  | .dynOf t, args, elemArgs =>
    match args.len with
    | none => none
    | some n =>
      if n = 0 then some 0
      else (dynLen t elemArgs).bind (checkedMul n)
  | t, args, _ => dynLen t args

/-- State captured by `DynArrayCView` / `DynArrayMView` at construction:
the borrowed buffer length, the element count, the element args to forward
to each element view, and the cached per-element span. -/
structure DynArrayView where
  bufLen : Nat
  count : Nat
  elemArgs : DynArgs
  elemSpan : Nat
deriving DecidableEq, Repr

/-- Embedding of `Dyn<[T]>::cview` / `mview`: the count comes from
`args.len` (`expect` panics when absent), the element span is
`buf.len() / count` guarded by `debug_assert_eq!(buf.len() % count, 0)`
(0 when the count is 0), and the stored element args are
`DynArgs::default()`. -/
def cviewDyn (bufLen : Nat) (args : DynArgs) : Option DynArrayView :=
  match args.len with
  | none => none
  | some count =>
    if count = 0 then some ⟨bufLen, 0, DynArgs.default, 0⟩
    else if bufLen % count = 0 then
      some ⟨bufLen, count, DynArgs.default, bufLen / count⟩
    else none

/-- Embedding of `Dyn<[T]>::cview_full` / `mview_full`: the element span is
`T::dyn_len(elem_args)` guarded by `debug_assert_eq!(buf.len(), count * span)`,
and the supplied element args are cached in the view. -/
def cviewFullDyn (t : ElemTy) (bufLen : Nat) (args elemArgs : DynArgs) :
    Option DynArrayView :=
  args.len.bind fun count =>
    if count = 0 then some ⟨bufLen, 0, elemArgs, 0⟩
    else
      (dynLen t elemArgs).bind fun span =>
        if bufLen = count * span then some ⟨bufLen, count, elemArgs, span⟩
        else none

/-- Embedding of `DynArrayCView::len` / `DynArrayMView::len`. -/
def viewLen (v : DynArrayView) : Nat := v.count

/-- Bounds contract of `get` / `get_mut`: `debug_assert!(i < self.count)`. -/
def inBounds (v : DynArrayView) (i : Nat) : Prop := i < v.count

instance (v : DynArrayView) (i : Nat) : Decidable (inBounds v i) := by
  unfold inBounds; infer_instance

/-- Sub-buffer handed to the element adapter by `get(i)` / `get_mut(i)`:
`&self.base[i * span .. i * span + span]` with `span = self.elem_span`. -/
def dynGetSlice {F : Type} (buf : List F) (span i : Nat) : List F :=
  (buf.drop (i * span)).take span

/-- Buffer after a single store at local offset `j` of the element slice
returned by `get_mut(i)`: the scalar `MView` writes `slice[0]` and the
`Vec3ViewMut` accessors write `slice[0] / slice[1] / slice[2]`, which in the
backing buffer is position `i * span + j`. -/
def dynSetAt {F : Type} (buf : List F) (span i j : Nat) (x : F) : List F :=
  buf.set (i * span + j) x

/-- Buffer after `Vec3ViewMut::set(x, y, z)` on the field slice
`base[o .. o + 3]`: stores to `slice[0]`, `slice[1]`, `slice[2]` in order. -/
def vec3SetAt {F : Type} (buf : List F) (o : Nat) (x y z : F) : List F :=
  ((buf.set o x).set (o + 1) y).set (o + 2) z

/-- Read of `Vec3View::x` through a const view over field slice `base[o .. o + 3]`. -/
def vec3XAt {F : Type} (buf : List F) (o : Nat) : Option F := buf[o]?

/-- Read of `Vec3View::y` through a const view over field slice `base[o .. o + 3]`. -/
def vec3YAt {F : Type} (buf : List F) (o : Nat) : Option F := buf[o + 1]?

/-- Read of `Vec3View::z` through a const view over field slice `base[o .. o + 3]`. -/
def vec3ZAt {F : Type} (buf : List F) (o : Nat) : Option F := buf[o + 2]?

/-- Buffer-length check of the record `view` / `cview` generated by
`contig-derive`: `assert!(base.len() >= self.len, "buffer too small for layout")`. -/
def recordViewAccepts (layoutLen bufLen : Nat) : Bool :=
  decide (layoutLen ≤ bufLen)

/-- Buffer-length check of the core `Spec` impl for `Vec3`:
`debug_assert_eq!(buf.len(), 3)`. -/
def vec3SpecCheck (bufLen : Nat) : Bool :=
  decide (bufLen = 3)

/-- Buffer-length check of the core `Spec` impl for scalars:
`debug_assert_eq!(buf.len(), 1)`. -/
def scalarSpecCheck (bufLen : Nat) : Bool :=
  decide (bufLen = 1)

/-- Buffer-length check of the demo `Contig for Vec3` adapter:
`debug_assert!(buf.len() >= 3)` followed by truncation to `buf[..3]`. -/
def demoVec3ViewCheck (bufLen : Nat) : Bool :=
  decide (3 ≤ bufLen)

/-- Closed form of `fromConfigRanges`: the generated `from_config` succeeds
exactly when the total footprint fits in `usize`, and then yields the chained
ranges starting at 0 together with `finish() = sum`. -/
theorem fromConfigRanges_eq (ns : List Nat) :
    fromConfigRanges ns =
      if ns.sum ≤ USIZE_MAX then some (rangesFrom 0 ns, ns.sum) else none := by
  unfold fromConfigRanges
  rw [runTakes_eq ns TakeCursor.new (Nat.zero_le _)]
  simp only [show TakeCursor.new.idx = 0 from rfl, Nat.zero_add]
  by_cases hsum : ns.sum ≤ USIZE_MAX
  · rw [if_pos hsum, if_pos hsum]
    rfl
  · rw [if_neg hsum, if_neg hsum]

/-- Inversion for a successful `from_config` run. -/
theorem fromConfigRanges_some (ns : List Nat) (rs : List Range) (len : Nat)
    (h : fromConfigRanges ns = some (rs, len)) :
    rs = rangesFrom 0 ns ∧ len = ns.sum ∧ ns.sum ≤ USIZE_MAX := by
  rw [fromConfigRanges_eq] at h
  by_cases hsum : ns.sum ≤ USIZE_MAX
  · rw [if_pos hsum] at h
    injection h with h'
    exact ⟨(congrArg Prod.fst h').symm, (congrArg Prod.snd h').symm, hsum⟩
  · rw [if_neg hsum] at h
    exact absurd h (by simp)

/-- An index with a `some` optional lookup is within the list's length. -/
theorem getElem?_some_lt {α : Type} (l : List α) (i : Nat) (a : α)
    (h : l[i]? = some a) : i < l.length := by
  by_contra hcon
  rw [List.getElem?_eq_none (by omega)] at h
  exact Option.noConfusion h

/-- Zero-based specialization of `rangesFrom_get?`. -/
theorem rangesFrom0_get? (ns : List Nat) (i : Nat) (hi : i < ns.length) :
    (rangesFrom 0 ns)[i]? =
      some ⟨(ns.take i).sum, (ns.take (i + 1)).sum⟩ := by
  rw [rangesFrom_get? ns 0 i hi]
  simp

/-- Ranges allocated earlier end no later than later ranges start. -/
theorem rangesFrom0_order (ns : List Nat) (i j : Nat) (ri rj : Range)
    (hij : i < j)
    (hri : (rangesFrom 0 ns)[i]? = some ri)
    (hrj : (rangesFrom 0 ns)[j]? = some rj) :
    ri.stop ≤ rj.start := by
  have hi : i < ns.length := by
    have := getElem?_some_lt _ _ _ hri
    rwa [rangesFrom_length] at this
  have hj : j < ns.length := by
    have := getElem?_some_lt _ _ _ hrj
    rwa [rangesFrom_length] at this
  rw [rangesFrom0_get? ns i hi] at hri
  rw [rangesFrom0_get? ns j hj] at hrj
  injection hri with hri'
  injection hrj with hrj'
  rw [← hri', ← hrj']
  exact sum_take_mono ns (i + 1) j (by omega)

/-- Dense order-preserving partition property of a record layout: the total
equals the sum of the field footprints, the `i`-th field's range is the
`i`-th window of partial sums (declaration order), distinct ranges are
ordered and pairwise disjoint, and the ranges cover `[0, len)` exactly. -/
def LayoutPartition (ns : List Nat) (rs : List Range) (len : Nat) : Prop :=
  len = ns.sum ∧
  rs.length = ns.length ∧
  (∀ i, i < rs.length →
    rs[i]? = some ⟨(ns.take i).sum, (ns.take (i + 1)).sum⟩) ∧
  (∀ (i j : Nat) (ri rj : Range), i < j → rs[i]? = some ri → rs[j]? = some rj →
    ri.stop ≤ rj.start) ∧
  (∀ (i j : Nat) (ri rj : Range), i ≠ j → rs[i]? = some ri → rs[j]? = some rj →
    ∀ p, ¬ (ri.mem p ∧ rj.mem p)) ∧
  (∀ p, p < len ↔ ∃ r ∈ rs, r.mem p)

/-- Invariants of one full cursor run: consecutive ranges are adjacent
(each starts where the previous ended), ranges at increasing positions are
strictly increasing pointwise, distinct ranges never overlap, and together
the ranges cover `[0, finish())` exactly. -/
def CursorRunSpec (rs : List Range) (fin : Nat) : Prop :=
  (∀ (i : Nat) (ri rnext : Range), rs[i]? = some ri → rs[i + 1]? = some rnext →
    ri.stop = rnext.start) ∧
  (∀ (i j : Nat) (ri rj : Range), i < j → rs[i]? = some ri → rs[j]? = some rj →
    ∀ p q, ri.mem p → rj.mem q → p < q) ∧
  (∀ (i j : Nat) (ri rj : Range), i ≠ j → rs[i]? = some ri → rs[j]? = some rj →
    ∀ p, ¬ (ri.mem p ∧ rj.mem p)) ∧
  (∀ p, p < fin ↔ ∃ r ∈ rs, r.mem p)

/-- C1: for every record layout computed by the generated `from_config` from
a valid configuration (one `take_range` per field, in field declaration
order, with per-field footprints `ns`), the offset ranges assigned to the
fields are pairwise disjoint, ordered by declaration/allocation order, and
their union is exactly `[0, len)` with no gaps, where `len` is the total
returned by the cursor's `finish()` and equals the sum of the fields'
footprints. -/
theorem record_layout_ranges_partition (ns : List Nat) (rs : List Range) (len : Nat)
    (h : fromConfigRanges ns = some (rs, len)) :
    LayoutPartition ns rs len := by
  obtain ⟨hrs, hlen, hsum⟩ := fromConfigRanges_some ns rs len h
  subst hrs; subst hlen
  have hidx : ∀ i, i < (rangesFrom 0 ns).length →
      (rangesFrom 0 ns)[i]? =
        some ⟨(ns.take i).sum, (ns.take (i + 1)).sum⟩ := by
    intro i hi
    rw [rangesFrom_length] at hi
    exact rangesFrom0_get? ns i hi
  refine ⟨rfl, rangesFrom_length ns 0, hidx, ?_, ?_, ?_⟩
  · intro i j ri rj hij hri hrj
    exact rangesFrom0_order ns i j ri rj hij hri hrj
  · intro i j ri rj hne hri hrj p hp
    rcases Nat.lt_or_ge i j with hij | hij
    · have := rangesFrom0_order ns i j ri rj hij hri hrj
      rcases hp with ⟨⟨_, hp1⟩, ⟨hp2, _⟩⟩
      omega
    · have hji : j < i := by omega
      have := rangesFrom0_order ns j i rj ri hji hrj hri
      rcases hp with ⟨⟨hp1, _⟩, ⟨_, hp2⟩⟩
      omega
  · intro p
    constructor
    · intro hp
      exact rangesFrom_cover ns 0 p (Nat.zero_le _) (by omega)
    · rintro ⟨r, hr, hmem⟩
      have := rangesFrom_mem_bounds ns 0 r hr
      rcases hmem with ⟨_, h2⟩
      omega

/-- Witness for C1 at the concrete footprints `[1, 3, 4]`. -/
theorem record_layout_ranges_partition_witness :
    LayoutPartition [1, 3, 4] [⟨0, 1⟩, ⟨1, 4⟩, ⟨4, 8⟩] 8 :=
  record_layout_ranges_partition [1, 3, 4] [⟨0, 1⟩, ⟨1, 4⟩, ⟨4, 8⟩] 8 (by decide)

/-- C4: for every sequence of successful `take_range(n_1), ..., take_range(n_k)`
calls on a cursor created by `new()`, the returned ranges are strictly
increasing, pairwise non-overlapping, each range starts where the previous one
ended, and their union equals `[0, finish())`. -/
theorem cursor_ranges_strictly_increasing_cover (ns : List Nat) (rs : List Range)
    (fin : Nat) (h : fromConfigRanges ns = some (rs, fin)) :
    CursorRunSpec rs fin := by
  obtain ⟨hrs, hlen, hsum⟩ := fromConfigRanges_some ns rs fin h
  subst hrs; subst hlen
  refine ⟨?_, ?_, ?_, ?_⟩
  · intro i ri rnext hri hrnext
    have hi : i < ns.length := by
      have := getElem?_some_lt _ _ _ hri
      rwa [rangesFrom_length] at this
    have hinext : i + 1 < ns.length := by
      have := getElem?_some_lt _ _ _ hrnext
      rwa [rangesFrom_length] at this
    rw [rangesFrom0_get? ns i hi] at hri
    rw [rangesFrom0_get? ns (i + 1) hinext] at hrnext
    injection hri with hri'
    injection hrnext with hrnext'
    rw [← hri', ← hrnext']
  · intro i j ri rj hij hri hrj p q hp hq
    have := rangesFrom0_order ns i j ri rj hij hri hrj
    rcases hp with ⟨_, hp2⟩
    rcases hq with ⟨hq1, _⟩
    omega
  · intro i j ri rj hne hri hrj p hp
    rcases Nat.lt_or_ge i j with hij | hij
    · have := rangesFrom0_order ns i j ri rj hij hri hrj
      rcases hp with ⟨⟨_, hp1⟩, ⟨hp2, _⟩⟩
      omega
    · have hji : j < i := by omega
      have := rangesFrom0_order ns j i rj ri hji hrj hri
      rcases hp with ⟨⟨hp1, _⟩, ⟨_, hp2⟩⟩
      omega
  · intro p
    constructor
    · intro hp
      exact rangesFrom_cover ns 0 p (Nat.zero_le _) (by omega)
    · rintro ⟨r, hr, hmem⟩
      have := rangesFrom_mem_bounds ns 0 r hr
      rcases hmem with ⟨_, h2⟩
      omega

/-- Witness for C4 at the concrete requests `[2, 0, 5]` (including a
zero-sized take producing an empty range). -/
theorem cursor_ranges_strictly_increasing_cover_witness :
    CursorRunSpec [⟨0, 2⟩, ⟨2, 2⟩, ⟨2, 7⟩] 7 :=
  cursor_ranges_strictly_increasing_cover [2, 0, 5] [⟨0, 2⟩, ⟨2, 2⟩, ⟨2, 7⟩] 7
    (by decide)

/-- C3 (code evaluation at the failing input): a first `take_range(1)`
succeeds, and the follow-up `take_range(usize::MAX)` makes the cumulative
index exceed `usize::MAX`; the source then panics through
`checked_add(n).expect("overflow in TakeCursor::take_range")` — modelled as
`none` — instead of returning a recoverable `LayoutError::Overflow` value
(that variant is never constructed anywhere in the crate).  The failure is
not a silent wraparound, but it is an unrecoverable abort. -/
theorem take_range_overflow_panics :
    TakeCursor.new.takeRange 1 = some (⟨0, 1⟩, ⟨1⟩) ∧
    runTakes TakeCursor.new [1, USIZE_MAX] = none := by
  constructor
  · decide
  · decide

/-- C2: for every dynamic array `Dyn<[T]>` over an element type whose
footprint `e` is computed once from the element configuration, the array's
total footprint equals `count * e` (so a count of 0 yields footprint 0);
this holds both for `dyn_len_with_elem` (explicit element args) and for
`dyn_len` (default element args), whenever the `usize` product does not
overflow. -/
theorem dyn_len_eq_count_mul_elem (t : ElemTy) (args elemArgs : DynArgs)
    (n e e0 : Nat)
    (hn : args.len = some n)
    (he : dynLen t elemArgs = some e)
    (hov : n * e ≤ USIZE_MAX)
    (he0 : dynLen t DynArgs.default = some e0)
    (hov0 : n * e0 ≤ USIZE_MAX) :
    dynLenWithElem (.dynOf t) args elemArgs = some (n * e) ∧
    dynLen (.dynOf t) args = some (n * e0) := by
  by_cases h0 : n = 0
  · subst h0
    constructor
    · simp [dynLenWithElem, hn]
    · simp [dynLen, hn]
  · constructor
    · simp [dynLenWithElem, hn, h0, he, checkedMul, hov]
    · simp [dynLen, hn, h0, he0, checkedMul, hov0]

/-- Witness for C2: a dynamic array of 5 `Vec3` elements has footprint 15. -/
theorem dyn_len_eq_count_mul_elem_witness :
    dynLenWithElem (.dynOf .vec3) (DynArgs.withLen 5) DynArgs.default
      = some (5 * 3) ∧
    dynLen (.dynOf .vec3) (DynArgs.withLen 5) = some (5 * 3) :=
  dyn_len_eq_count_mul_elem .vec3 (DynArgs.withLen 5) DynArgs.default 5 3 3
    rfl rfl (by decide) rfl (by decide)

/-- C7 counterexample: the record view check generated by `contig-derive` is
`assert!(base.len() >= self.len)`, so a buffer of length 5 passes the check
for a layout of length 3 even though `5 ≠ 3`; likewise the demo `Vec3`
adapter's `debug_assert!(buf.len() >= 3)` accepts a slice of length 4.  The
claim that the implemented checks reject any slice whose length differs from
`len(layout)` is therefore false. -/
theorem view_check_accepts_oversized_slice :
    recordViewAccepts 3 5 = true ∧ (5 : Nat) ≠ 3 ∧
    demoVec3ViewCheck 4 = true ∧ (4 : Nat) ≠ 3 := by
  decide

/-- C7 amended: `view` / `view_mut` require a slice of length exactly
`len(layout)` as a contract, but the implemented checks enforce it only
partially: the derive-generated record check and the demo `Vec3` check
accept any slice at least as long as required (rejecting exactly the
undersized slices), while the core `Spec`-level debug checks for scalars and
`Vec3` do reject any length other than the exact footprint. -/
theorem view_checks_reject_only_undersized :
    (∀ l b : Nat, recordViewAccepts l b = true ↔ l ≤ b) ∧
    (∀ b : Nat, vec3SpecCheck b = true ↔ b = 3) ∧
    (∀ b : Nat, scalarSpecCheck b = true ↔ b = 1) ∧
    (∀ b : Nat, demoVec3ViewCheck b = true ↔ 3 ≤ b) := by
  refine ⟨fun l b => ?_, fun b => ?_, fun b => ?_, fun b => ?_⟩ <;>
    simp [recordViewAccepts, vec3SpecCheck, scalarSpecCheck, demoVec3ViewCheck]

/-- C8 counterexample: the `DynSpec` dynamic-array algorithm does not support
arbitrary nesting depth.  At depth 3 (`Dyn<[Dyn<[Dyn<[f64]>]>]>`) with
nonzero counts, footprint computation panics (`expect` on
`DynArgs::default().len`, which is `None`), because a single `DynArgs` value
cannot describe the args of elements nested two levels down; the claim's
"total footprint consistent with the nested counts at every depth" fails at
the concrete input `count = 1`, `elem count = 1`. -/
theorem nested_depth3_dyn_len_panics :
    dynLenWithElem (.dynOf (.dynOf (.dynOf .scalar)))
        (DynArgs.withLen 1) (DynArgs.withLen 1) = none ∧
    dynLen (.dynOf (.dynOf (.dynOf .scalar))) (DynArgs.withLen 1) = none := by
  decide

/-- C8 amended: nesting is supported up to one dynamic level inside the
array element.  For a dynamic array of `n` dynamic arrays of `m` elements of
footprint `e` (with nonzero counts and no `usize` overflow), the total
footprint is `n * (m * e)`, the outer full view caches element span `m * e`
and the inner element args, and for every outer index `i < n` the nested
sub-view reports the correct local length `m`, independent of `i`; at depth
3 and beyond with nonzero counts the computation panics instead
(see the counterexample). -/
theorem nested_depth2_footprint_and_local_len (t : ElemTy) (n m e : Nat)
    (he : dynLen t DynArgs.default = some e)
    (hm : m * e ≤ USIZE_MAX)
    (hn : n * (m * e) ≤ USIZE_MAX)
    (hn0 : 0 < n) (hm0 : 0 < m) :
    dynLenWithElem (.dynOf (.dynOf t)) (DynArgs.withLen n) (DynArgs.withLen m)
      = some (n * (m * e)) ∧
    cviewFullDyn (.dynOf t) (n * (m * e)) (DynArgs.withLen n) (DynArgs.withLen m)
      = some ⟨n * (m * e), n, DynArgs.withLen m, m * e⟩ ∧
    (∀ i, i < n →
      cviewDyn (m * e) (DynArgs.withLen m)
        = some ⟨m * e, m, DynArgs.default, e⟩) := by
  have hm' : m ≠ 0 := by omega
  have hn' : n ≠ 0 := by omega
  have hinner : dynLen (.dynOf t) ⟨some m, none⟩ = some (m * e) := by
    simp [dynLen, hm', he, checkedMul, hm]
  refine ⟨?_, ?_, ?_⟩
  · simp [dynLenWithElem, DynArgs.withLen, hn', hinner, checkedMul, hn]
  · simp [cviewFullDyn, DynArgs.withLen, hn', hinner]
  · intro i _
    have hmod : m * e % m = 0 := Nat.mul_mod_right m e
    have hdiv : m * e / m = e := by
      rw [Nat.mul_comm]
      exact Nat.mul_div_cancel e hm0
    simp [cviewDyn, DynArgs.withLen, hm', hmod, hdiv]

/-- Witness for C8's amended statement: an outer count of 2, inner count of
3, scalar elements; total footprint 6 and local length 3 at every outer
index. -/
theorem nested_depth2_footprint_and_local_len_witness :
    dynLenWithElem (.dynOf (.dynOf .scalar)) (DynArgs.withLen 2) (DynArgs.withLen 3)
      = some (2 * (3 * 1)) ∧
    cviewFullDyn (.dynOf .scalar) (2 * (3 * 1)) (DynArgs.withLen 2) (DynArgs.withLen 3)
      = some ⟨2 * (3 * 1), 2, DynArgs.withLen 3, 3 * 1⟩ ∧
    (∀ i, i < 2 →
      cviewDyn (3 * 1) (DynArgs.withLen 3)
        = some ⟨3 * 1, 3, DynArgs.default, 1⟩) :=
  nested_depth2_footprint_and_local_len .scalar 2 3 1 rfl (by decide) (by decide)
    (by decide) (by decide)

/-- C9: a dynamic array configured with `count == 0` has computed footprint
0 (both `dyn_len` and `dyn_len_with_elem`), and the view constructed over
the correspondingly sized (empty) buffer reports length 0 and has no valid
index: `i < count` fails for every `i`, so every `get(i)` is outside the
bounds contract. -/
theorem zero_count_dyn_array (t : ElemTy) (elemArgs : DynArgs) (v : DynArrayView)
    (h : cviewDyn 0 (DynArgs.withLen 0) = some v) :
    dynLen (.dynOf t) (DynArgs.withLen 0) = some 0 ∧
    dynLenWithElem (.dynOf t) (DynArgs.withLen 0) elemArgs = some 0 ∧
    viewLen v = 0 ∧ (∀ i, ¬ inBounds v i) := by
  have hv : v = ⟨0, 0, DynArgs.default, 0⟩ := by
    have h' : (some (⟨0, 0, DynArgs.default, 0⟩ : DynArrayView) : Option DynArrayView)
        = some v := h
    injection h' with h''
    exact h''.symm
  subst hv
  refine ⟨rfl, rfl, rfl, ?_⟩
  intro i
  simp [inBounds]

/-- Witness for C9 with scalar elements and the concrete empty view. -/
theorem zero_count_dyn_array_witness :
    dynLen (.dynOf .scalar) (DynArgs.withLen 0) = some 0 ∧
    dynLenWithElem (.dynOf .scalar) (DynArgs.withLen 0) DynArgs.default = some 0 ∧
    viewLen ⟨0, 0, DynArgs.default, 0⟩ = 0 ∧
    (∀ i, ¬ inBounds ⟨0, 0, DynArgs.default, 0⟩ i) :=
  zero_count_dyn_array .scalar DynArgs.default ⟨0, 0, DynArgs.default, 0⟩ rfl

/-- Inversion of a successful `cview_full` / `mview_full` construction with a
positive count: the count comes from the node args, the cached element span
is the element footprint computed from the element args at construction
time, and the buffer is exactly `count * span` long (the
`debug_assert_eq!(buf.len(), count * span)` guard). -/
theorem cviewFullDyn_some_pos (t : ElemTy) (bufLen : Nat) (args elemArgs : DynArgs)
    (v : DynArrayView) (hv : cviewFullDyn t bufLen args elemArgs = some v)
    (hpos : 0 < v.count) :
    args.len = some v.count ∧ dynLen t elemArgs = some v.elemSpan ∧
    v.bufLen = bufLen ∧ v.elemArgs = elemArgs ∧ bufLen = v.count * v.elemSpan := by
  unfold cviewFullDyn at hv
  cases hl : args.len with
  | none =>
    rw [hl] at hv
    exact absurd hv (by simp)
  | some count =>
    rw [hl, Option.some_bind] at hv
    by_cases hc : count = 0
    · rw [if_pos hc] at hv
      injection hv with hv'
      rw [← hv'] at hpos
      simp at hpos
    · rw [if_neg hc] at hv
      cases hd : dynLen t elemArgs with
      | none =>
        rw [hd] at hv
        exact absurd hv (by simp)
      | some span =>
        rw [hd, Option.some_bind] at hv
        by_cases hb : bufLen = count * span
        · rw [if_pos hb] at hv
          injection hv with hv'
          subst hv'
          exact ⟨rfl, rfl, rfl, rfl, hb⟩
        · rw [if_neg hb] at hv
          exact absurd hv (by simp)

/-- C5: for every dynamic-array view over a correctly sized buffer with a
positive count and every index `i < count`, `get(i)` / `get_mut(i)` hands the
element adapter exactly the `elem_len` consecutive buffer positions starting
at `i * elem_len`, where `elem_len` is the element span cached in the view at
construction (`dyn_len` of the element configuration, never recomputed per
access); the span expression is independent of `i`, so every element has the
same span. -/
theorem dyn_get_slice_cached_span {F : Type} (t : ElemTy) (buf : List F)
    (args elemArgs : DynArgs) (v : DynArrayView) (i : Nat)
    (hv : cviewFullDyn t buf.length args elemArgs = some v)
    (hpos : 0 < v.count) (hi : i < v.count) :
    dynLen t elemArgs = some v.elemSpan ∧
    v.bufLen = v.count * v.elemSpan ∧
    (dynGetSlice buf v.elemSpan i).length = v.elemSpan ∧
    (∀ j, j < v.elemSpan →
      (dynGetSlice buf v.elemSpan i)[j]? = buf[i * v.elemSpan + j]?) := by
  obtain ⟨hl, hd, hbuf, helem, hsize⟩ :=
    cviewFullDyn_some_pos t buf.length args elemArgs v hv hpos
  have hle : i * v.elemSpan + v.elemSpan ≤ buf.length := by
    have h2 : (i + 1) * v.elemSpan ≤ v.count * v.elemSpan :=
      Nat.mul_le_mul_right _ hi
    have h3 : (i + 1) * v.elemSpan = i * v.elemSpan + v.elemSpan :=
      Nat.succ_mul i _
    omega
  refine ⟨hd, hbuf.trans hsize, ?_, ?_⟩
  · show ((buf.drop (i * v.elemSpan)).take v.elemSpan).length = v.elemSpan
    simp only [List.length_take, List.length_drop]
    omega
  · intro j hj
    show ((buf.drop (i * v.elemSpan)).take v.elemSpan)[j]? = buf[i * v.elemSpan + j]?
    rw [List.getElem?_take, if_pos hj]
    exact List.getElem?_drop buf _ j

/-- Witness for C5: a full view over a 6-element buffer holding 2 `Vec3`
elements; element 1 occupies positions 3, 4, 5. -/
theorem dyn_get_slice_cached_span_witness :
    dynLen .vec3 DynArgs.default = some 3 ∧
    (6 : Nat) = 2 * 3 ∧
    (dynGetSlice ([10, 20, 30, 40, 50, 60] : List Nat) 3 1).length = 3 ∧
    (∀ j, j < 3 →
      (dynGetSlice ([10, 20, 30, 40, 50, 60] : List Nat) 3 1)[j]? =
        ([10, 20, 30, 40, 50, 60] : List Nat)[1 * 3 + j]?) :=
  dyn_get_slice_cached_span .vec3 [10, 20, 30, 40, 50, 60]
    (DynArgs.withLen 2) DynArgs.default ⟨6, 2, DynArgs.default, 3⟩ 1
    (by decide) (by decide) (by decide)

/-- C6: values written through a mutable view at a field coordinate and read
back through a const view over the same buffer at the same coordinate are
returned unchanged.  Model: a record field of `Vec3` type whose layout
assigned it the offset range `[o, o + 3)`; after `set(x, y, z)` through the
mutable view, the const view's `x()`, `y()`, `z()` read back `x`, `y`, `z`. -/
theorem vec3_write_read_roundtrip {F : Type} (buf : List F) (o : Nat) (x y z : F)
    (h : o + 3 ≤ buf.length) :
    vec3XAt (vec3SetAt buf o x y z) o = some x ∧
    vec3YAt (vec3SetAt buf o x y z) o = some y ∧
    vec3ZAt (vec3SetAt buf o x y z) o = some z := by
  unfold vec3SetAt vec3XAt vec3YAt vec3ZAt
  have h0 : o < buf.length := by omega
  refine ⟨?_, ?_, ?_⟩
  · rw [List.getElem?_set_ne (by omega), List.getElem?_set_ne (by omega)]
    exact List.getElem?_set_self h0
  · rw [List.getElem?_set_ne (by omega)]
    exact List.getElem?_set_self (by simp; omega)
  · exact List.getElem?_set_self (by simp; omega)

/-- Witness for C6 at offset 1 in a 4-element buffer. -/
theorem vec3_write_read_roundtrip_witness :
    vec3XAt (vec3SetAt ([0, 0, 0, 0] : List Nat) 1 7 8 9) 1 = some 7 ∧
    vec3YAt (vec3SetAt ([0, 0, 0, 0] : List Nat) 1 7 8 9) 1 = some 8 ∧
    vec3ZAt (vec3SetAt ([0, 0, 0, 0] : List Nat) 1 7 8 9) 1 = some 9 :=
  vec3_write_read_roundtrip [0, 0, 0, 0] 1 7 8 9 (by decide)

/-- C10: for a dynamic-array mutable view over a buffer of length
`count * span` and an in-bounds index `i`, a store performed through the
element view returned by `get_mut(i)` (a write at local offset `j < span` of
the element slice, hence at buffer position `i * span + j`) lands inside
`[i * span, (i + 1) * span)` and leaves every buffer position outside that
range unchanged. -/
theorem dyn_get_mut_write_frame {F : Type} (buf : List F) (count span i j : Nat)
    (x : F) (hlen : buf.length = count * span) (hi : i < count) (hj : j < span) :
    (dynSetAt buf span i j x).length = buf.length ∧
    i * span ≤ i * span + j ∧ i * span + j < (i + 1) * span ∧
    (∀ p, p < i * span ∨ (i + 1) * span ≤ p →
      (dynSetAt buf span i j x)[p]? = buf[p]?) := by
  have hin : i * span + j < (i + 1) * span := by
    have hsm : (i + 1) * span = i * span + span := Nat.succ_mul i span
    omega
  refine ⟨by simp [dynSetAt], Nat.le_add_right _ _, hin, ?_⟩
  intro p hp
  unfold dynSetAt
  exact List.getElem?_set_ne (by rcases hp with hp | hp <;> omega)

/-- Witness for C10: writing 99 at local offset 0 of element 1 in a
2-by-3 buffer leaves positions 0, 1, 2 (and none above 5 exist) unchanged. -/
theorem dyn_get_mut_write_frame_witness :
    (dynSetAt ([10, 20, 30, 40, 50, 60] : List Nat) 3 1 0 99).length =
      ([10, 20, 30, 40, 50, 60] : List Nat).length ∧
    1 * 3 ≤ 1 * 3 + 0 ∧ 1 * 3 + 0 < (1 + 1) * 3 ∧
    (∀ p, p < 1 * 3 ∨ (1 + 1) * 3 ≤ p →
      (dynSetAt ([10, 20, 30, 40, 50, 60] : List Nat) 3 1 0 99)[p]? =
        ([10, 20, 30, 40, 50, 60] : List Nat)[p]?) :=
  dyn_get_mut_write_frame [10, 20, 30, 40, 50, 60] 2 3 1 0 99
    (by decide) (by decide) (by decide)
